import Mathlib

/-!
Verification of the drift/cycle analysis and prediction engine of the
sleep.man repository, embedded from `src/components/sleep-chart.ts`.

Modelling conventions.

* Timestamps are epoch milliseconds.  `Date.parse` of the ISO input
  strings always yields an integer number of milliseconds, so the
  stored record timestamps are `ℤ`.  Intermediate JavaScript numbers
  (averages, drifted times) are modelled as exact rationals `ℚ`;
  IEEE-754 rounding and `Date` time-value clipping are idealised as
  exact rational arithmetic.
* The JavaScript remainder operator `%` truncates toward zero: on
  integers it is `Int.tmod`, on rationals it is `a - b * trunc (a/b)`.
* `Date#getHours` / `Date#getMinutes` read the host time zone.  The
  host zone is modelled as a fixed UTC offset `tz` in milliseconds
  (no DST transitions), so the local time of a timestamp `t` is
  `t + tz`.  JavaScript extracts calendar fields by flooring, which
  for a positive divisor is what `/` and `%` on `ℤ` compute.
* `Date#toISOString` reads UTC, so the calendar-date grouping key
  `toISOString().split('T')[0]` is modelled as the UTC day index
  `t / 86400000` with flooring division (two timestamps produce the
  same date string iff they have the same UTC day index).
* `Math.round` rounds half toward positive infinity, which is exactly
  Mathlib's `round` (`⌊x + 1/2⌋`).  A JavaScript division whose result
  is not a finite number (`0/0 = NaN`) is modelled as `Option.none`.
-/

/-- A sleep record as parsed from the JSON input (`SleepRecord` at
sleep-chart.ts:2-7): `sleep` and `wake` hold the epoch-millisecond
values of the ISO datetime strings, `rating` the quality rating,
`note` the free-text note. -/
structure SleepRecord where
  sleep : ℤ
  wake : ℤ
  rating : ℚ
  note : String
deriving DecidableEq

/-- Result of `calculateDrift` (sleep-chart.ts:724): average daily
drift of sleep and wake times in milliseconds plus average rating. -/
structure DriftResult where
  sleepDrift : ℚ
  wakeDrift : ℚ
  avgRating : ℚ
deriving DecidableEq

/-- `const HOURS_IN_DAY = 24 * 60 * 60 * 1000` (sleep-chart.ts:750). -/
def HOURS_IN_DAY : ℤ := 24 * 60 * 60 * 1000

/-- The per-pair drift normalisation of `calculateDrift`
(sleep-chart.ts:751-760): a raw millisecond difference is first
brought into `[0, 24h)` by `((x % H) + H) % H` (JavaScript `%` on
integers is `Int.tmod`), and `24h` is subtracted when the result
exceeds twelve hours. -/
def foldDiff (x : ℤ) : ℤ :=
  let n := (x.tmod HOURS_IN_DAY + HOURS_IN_DAY).tmod HOURS_IN_DAY
  if 12 * 60 * 60 * 1000 < n then n - HOURS_IN_DAY else n

/-- The accumulator loop of `calculateDrift` (sleep-chart.ts:739-765):
given the previous entry and the remaining entries, returns
`(totalSleepDrift, totalWakeDrift, totalRating)`.  Note that the loop
starts at index 1, so `totalRating` sums the ratings of every entry
except the first. -/
def driftTotals : SleepRecord → List SleepRecord → ℤ × ℤ × ℚ
  | _, [] => (0, 0, 0)
  | prev, e :: es =>
    let rest := driftTotals e es
    (foldDiff (e.sleep - prev.sleep) + rest.1,
     foldDiff (e.wake - prev.wake) + rest.2.1,
     e.rating + rest.2.2)

/-- `calculateDrift` (sleep-chart.ts:724-777).  Fewer than two entries
yield the fixed default of +30 minutes drift and rating 3; otherwise
the per-pair totals are averaged: the drifts over the `n - 1` pairs,
the rating total over all `n` entries. -/
def calculateDrift : List SleepRecord → DriftResult
  | e :: es@(_ :: _) =>
    let t := driftTotals e es
    { sleepDrift := (t.1 : ℚ) / (es.length : ℚ)
      wakeDrift := (t.2.1 : ℚ) / (es.length : ℚ)
      avgRating := t.2.2 / ((es.length : ℚ) + 1) }
  | _ =>
    { sleepDrift := 30 * 60 * 1000
      wakeDrift := 30 * 60 * 1000
      avgRating := 3 }

/-! ### Cycle length (updateNon24Info, sleep-chart.ts:94-111) -/

/-- Truncation toward zero, the rounding used by the JavaScript
remainder on numbers. -/
def truncQ (q : ℚ) : ℤ := if 0 ≤ q then ⌊q⌋ else ⌈q⌉

/-- The JavaScript remainder `a % b` on finite numbers with `b ≠ 0`:
`a - b * trunc (a / b)`. -/
def jsRemQ (a b : ℚ) : ℚ := a - b * (truncQ (a / b) : ℚ)

/-- A JavaScript division, `none` when the divisor is zero and the
result would be `NaN` or infinite. -/
def jsDiv (a b : ℚ) : Option ℚ := if b = 0 then none else some (a / b)

/-- The cycle-length computation of `updateNon24Info`
(sleep-chart.ts:94-111): `driftPerDay = totalDrift % HOURS_IN_DAY`,
`adjustedDrift = driftPerDay === 0 ? totalDrift : driftPerDay`; a
magnitude below one minute reports cycle length 0, otherwise the
result is `Math.abs(Math.round(HOURS_IN_DAY / adjustedDrift))` days. -/
def cycleDays (totalDrift : ℚ) : ℤ :=
  let driftPerDay := jsRemQ totalDrift 86400000
  let adjustedDrift := if driftPerDay = 0 then totalDrift else driftPerDay
  if |adjustedDrift| < 60000 then 0
  else |round ((86400000 : ℚ) / adjustedDrift)|

/-! ### Day grouping (sleep-chart.ts:115-126 and 569-579) -/

/-- The grouping key `new Date(t).toISOString().split('T')[0]`: two
timestamps produce the same date string exactly when they have the
same UTC day index. -/
def dateKey (t : ℤ) : ℤ := t / 86400000

/-- One `Map` insertion of the grouping loops: append the record to
the group with key `k`, or create that group at the end (JavaScript
`Map` iterates in key-insertion order). -/
def insertByDay (k : ℤ) (r : SleepRecord) :
    List (ℤ × List SleepRecord) → List (ℤ × List SleepRecord)
  | [] => [(k, [r])]
  | (k', g) :: rest =>
    if k' = k then (k', g ++ [r]) :: rest
    else (k', g) :: insertByDay k r rest

/-- The grouping of records by the calendar date of their `sleep`
timestamp (sleep-chart.ts:569-579; the identical loop at 115-126
groups all records for the daily averages). -/
def groupByDay (l : List SleepRecord) : List (ℤ × List SleepRecord) :=
  l.foldl (fun m r => insertByDay (dateKey r.sleep) r m) []

/-- The average-sleep-per-day computation of `updateNon24Info`
(sleep-chart.ts:114-153): wake-minus-sleep durations are summed per
day group and then over all groups, and the grand total is divided by
the number of day groups (for zero groups JavaScript computes `0/0 =
NaN`, modelled as `none`). -/
def avgSleepPerDayMs (l : List SleepRecord) : Option ℚ :=
  let groups := groupByDay l
  let total : ℚ :=
    (groups.map (fun p => (p.2.map (fun r => ((r.wake - r.sleep : ℤ) : ℚ))).sum)).sum
  jsDiv total (groups.length : ℚ)

/-! ### Main-sleep selection (sleep-chart.ts:584-613) -/

/-- `Date#getHours` of an integer timestamp under the fixed host-zone
offset `tz` in milliseconds. -/
def getHours (tz t : ℤ) : ℤ := ((t + tz) / 3600000) % 24

/-- `Date#getMinutes` of an integer timestamp under the fixed
host-zone offset `tz`. -/
def getMinutes (tz t : ℤ) : ℤ := ((t + tz) / 60000) % 60

/-- The duration metric of the selection loop (sleep-chart.ts:597-604):
clock positions `getHours() + getMinutes() / 60` in fractional hours,
with 24 added to the wake position when it is smaller than the sleep
position (overnight sleep). -/
def clockDuration (tz : ℤ) (r : SleepRecord) : ℚ :=
  let sleepHour : ℚ := (getHours tz r.sleep : ℚ) + (getMinutes tz r.sleep : ℚ) / 60
  let wakeHour : ℚ := (getHours tz r.wake : ℚ) + (getMinutes tz r.wake : ℚ) / 60
  let wakeHourAdj := if wakeHour < sleepHour then wakeHour + 24 else wakeHour
  wakeHourAdj - sleepHour

/-- One step of the longest-entry scan of `getMainSleepEntries`: the
accumulator `(longestDuration, longestEntry)` is replaced only when
the entry's duration strictly exceeds the stored duration. -/
def selStep (tz : ℤ) (acc : ℚ × SleepRecord) (e : SleepRecord) : ℚ × SleepRecord :=
  if clockDuration tz e > acc.1 then (clockDuration tz e, e) else acc

/-- Main-sleep selection for one day group (sleep-chart.ts:584-613):
an empty group is skipped, a singleton group returns its record, a
larger group scans all its entries starting from `longestDuration = 0`
and `longestEntry = entries[0]`. -/
def mainSleepOfDay (tz : ℤ) : List SleepRecord → Option SleepRecord
  | [] => none
  | [e] => some e
  | e :: es => some ((List.foldl (selStep tz) (0, e) (e :: es)).2)

/-! ### Prediction engine (generatePredictions, sleep-chart.ts:393-560) -/

/-- A predicted entry (`PredictedSleepRecord`, sleep-chart.ts:9-11),
timestamps kept as rational epoch milliseconds. -/
structure PredictedSleepRecord where
  sleep : ℚ
  wake : ℚ
  rating : ℤ
  note : String
  isPredicted : Bool
deriving DecidableEq

/-- Mathematical residue of a rational modulo a rational period,
`x - c * ⌊x / c⌋`; used to express clock-of-day positions. -/
def qmod (x c : ℚ) : ℚ := x - c * (⌊x / c⌋ : ℚ)

/-- `Date#getHours` of a (possibly fractional) millisecond time under
the fixed host-zone offset `tz`. -/
def getHoursQ (tz : ℤ) (t : ℚ) : ℤ := ⌊(t + (tz : ℚ)) / 3600000⌋ % 24

/-- `Date#getMinutes` of a rational millisecond time. -/
def getMinutesQ (tz : ℤ) (t : ℚ) : ℤ := ⌊(t + (tz : ℚ)) / 60000⌋ % 60

/-- `Date#setHours(h)`: replace the local hour of day, keeping the
date and the minutes, seconds and milliseconds. -/
def setHoursQ (tz : ℤ) (t : ℚ) (h : ℤ) : ℚ :=
  t + ((h - getHoursQ tz t : ℤ) : ℚ) * 3600000

/-- `Date#setMinutes(m)`: replace the local minutes, keeping
everything else. -/
def setMinutesQ (tz : ℤ) (t : ℚ) (m : ℤ) : ℚ :=
  t + ((m - getMinutesQ tz t : ℤ) : ℚ) * 60000

/-- The anchoring step of the prediction loop (sleep-chart.ts:511-519):
24 hours after the previous wake time, with hour and minute set to the
seed sleep pattern `sh:sm`. -/
def anchorTime (tz sh sm : ℤ) (prevWake : ℚ) : ℚ :=
  setMinutesQ tz (setHoursQ tz (prevWake + 86400000) sh) sm

/-- The `prevWakeTime` state of the prediction loop
(sleep-chart.ts:509-557) after `n` iterations, starting from the last
real wake time: iteration `i` (0-based) anchors the previous wake time
and adds the cumulative drift `d * (i + 1)`. -/
def predWakeTime (tz sh sm : ℤ) (d : ℚ) (lastWake : ℚ) : ℕ → ℚ
  | 0 => lastWake
  | i + 1 => anchorTime tz sh sm (predWakeTime tz sh sm d lastWake i) + d * (i + 1)

/-- The prediction loop of `generatePredictions`
(sleep-chart.ts:509-559), with the quantities the surrounding code
derives from the visible data — seed sleep pattern `sh:sm` (hour and
minute of the last real main-sleep entry's sleep time), visible sleep
drift `d`, average sleep duration `A`, average rating and last real
wake time — taken as arguments.  Prediction `i` (0-based) wakes at
`predWakeTime (i + 1)` and its sleep time is that wake time minus
`A`. -/
def generatePredictions (tz sh sm : ℤ) (d A avgR : ℚ)
    (lastWake : ℚ) (days : ℕ) : List PredictedSleepRecord :=
  (List.range days).map fun i =>
    { sleep := predWakeTime tz sh sm d lastWake (i + 1) - A
      wake := predWakeTime tz sh sm d lastWake (i + 1)
      rating := round avgR
      note := "Predicted entry"
      isPredicted := true }

/-- Following the spec's words for the grouping key ("date component
of the `sleep` timestamp, in the timestamp's original zone"): the day
index of the written local date of an ISO timestamp whose UTC instant
is `utcMs` and whose zone offset is `offsetMs`.  The code keys by
`dateKey` (UTC, via `toISOString`); this definition exists only to be
compared against it. -/
def dateKeySpecZone (utcMs offsetMs : ℤ) : ℤ := (utcMs + offsetMs) / 86400000

/-! ### Helper lemmas about the drift fold -/

/-- The double truncated-remainder step of `calculateDrift` computes the
canonical nonnegative residue modulo 24h. -/
theorem tmod_double (x : ℤ) :
    (x.tmod 86400000 + 86400000).tmod 86400000 = x % 86400000 := by
  rcases le_or_lt 0 x with hx | hx
  · rw [Int.tmod_eq_emod hx (by norm_num),
      Int.tmod_eq_emod (by omega) (by norm_num)]
    omega
  · have hneg : (-x).tmod 86400000 = -(x.tmod 86400000) := by
      rw [Int.tmod_def, Int.tmod_def, Int.neg_tdiv]
      ring
    have h0 : 0 ≤ (-x).tmod 86400000 := Int.tmod_nonneg _ (by omega)
    have h1 : (-x).tmod 86400000 < 86400000 := Int.tmod_lt_of_pos _ (by norm_num)
    have hd : (-x).tmod 86400000 = -x - 86400000 * ((-x).tdiv 86400000) :=
      Int.tmod_def _ _
    rw [Int.tmod_eq_emod (by omega) (by norm_num)]
    omega

/-- `foldDiff` rewritten with the mathematical residue. -/
theorem foldDiff_eq (x : ℤ) :
    foldDiff x =
      if 43200000 < x % 86400000 then x % 86400000 - 86400000
      else x % 86400000 := by
  simp only [foldDiff, HOURS_IN_DAY]
  norm_num
  rw [tmod_double x]

/-- Every per-pair folded drift lies in the signed range `(-12h, 12h]`. -/
theorem foldDiff_range (x : ℤ) : -43200000 < foldDiff x ∧ foldDiff x ≤ 43200000 := by
  rw [foldDiff_eq]
  constructor <;> split <;> omega

/-- Bounds for the drift totals of the `calculateDrift` loop. -/
theorem driftTotals_bounds (p : SleepRecord) (l : List SleepRecord) :
    (-43199999 * l.length ≤ (driftTotals p l).1 ∧
      (driftTotals p l).1 ≤ 43200000 * l.length) ∧
    (-43199999 * l.length ≤ (driftTotals p l).2.1 ∧
      (driftTotals p l).2.1 ≤ 43200000 * l.length) := by
  induction l generalizing p with
  | nil => simp [driftTotals]
  | cons e es ih =>
    have hs := foldDiff_range (e.sleep - p.sleep)
    have hw := foldDiff_range (e.wake - p.wake)
    have h2 := ih e
    simp only [driftTotals, List.length_cons] at h2 ⊢
    push_cast
    omega

/-- The `calculateDrift` totals written as sums over the list of
consecutive pairs (and, for the rating, over the tail). -/
theorem driftTotals_eq_sums (p : SleepRecord) (l : List SleepRecord) :
    driftTotals p l =
      ((List.zipWith (fun a b => foldDiff (b.sleep - a.sleep)) (p :: l) l).sum,
       (List.zipWith (fun a b => foldDiff (b.wake - a.wake)) (p :: l) l).sum,
       (l.map SleepRecord.rating).sum) := by
  induction l generalizing p with
  | nil => simp [driftTotals]
  | cons e es ih => simp [driftTotals, ih e]

/-- C1: the per-pair drift computed by `calculateDrift` is the fold of
the raw millisecond difference into `(-12h, 12h]`: the raw difference
is normalised into `[0, 24h)` by `((x mod 24h) + 24h) mod 24h` and
`24h` is subtracted when the result strictly exceeds `12h`; a pair
whose raw difference is `24h + d` with `-12h < d ≤ 12h` has drift
exactly `d`, and a pair differing by exactly `24h` has drift `0`. -/
theorem calculateDrift_pair_fold :
    (∀ x : ℤ, foldDiff x =
      if 43200000 < x % 86400000 then x % 86400000 - 86400000
      else x % 86400000) ∧
    (∀ d : ℤ, -43200000 < d → d ≤ 43200000 → foldDiff (86400000 + d) = d) ∧
    foldDiff 86400000 = 0 ∧
    (∀ a b : SleepRecord,
      (calculateDrift [a, b]).sleepDrift = (foldDiff (b.sleep - a.sleep) : ℚ) ∧
      (calculateDrift [a, b]).wakeDrift = (foldDiff (b.wake - a.wake) : ℚ)) := by
  refine ⟨foldDiff_eq, ?_, ?_, ?_⟩
  · intro d h1 h2
    rw [foldDiff_eq]
    split <;> omega
  · rw [foldDiff_eq]
    norm_num
  · intro a b
    simp [calculateDrift, driftTotals]

/-- Witness for C1 at the concrete raw difference `24h + 30m`. -/
theorem calculateDrift_pair_fold_witness :
    (-43200000 : ℤ) < 1800000 ∧ (1800000 : ℤ) ≤ 43200000 ∧
      foldDiff (86400000 + 1800000) = 1800000 :=
  ⟨by norm_num, by norm_num,
    calculateDrift_pair_fold.2.1 1800000 (by norm_num) (by norm_num)⟩

/-- C6: fewer than two entries make `calculateDrift` return the fixed
default of +30 minutes sleep drift, +30 minutes wake drift and average
rating 3 (it never fails on sparse input). -/
theorem calculateDrift_default (entries : List SleepRecord)
    (h : entries.length < 2) :
    calculateDrift entries =
      { sleepDrift := 30 * 60 * 1000, wakeDrift := 30 * 60 * 1000, avgRating := 3 } := by
  match entries with
  | [] => rfl
  | [e] => rfl
  | e :: f :: es => exact absurd h (by simp)

/-- Witness for C6 on the empty record list. -/
theorem calculateDrift_default_witness :
    ([] : List SleepRecord).length < 2 ∧
      calculateDrift [] =
        { sleepDrift := 30 * 60 * 1000, wakeDrift := 30 * 60 * 1000, avgRating := 3 } :=
  ⟨by norm_num, calculateDrift_default [] (by norm_num)⟩

/-- C9: for every entry list the drifts returned by `calculateDrift`
lie in the signed range `(-12h, 12h]` (in milliseconds): each folded
per-pair drift lies in that range, an arithmetic mean of such values
stays in it, and the fewer-than-two-entries default of +30 minutes
lies in it as well. -/
theorem calculateDrift_range (entries : List SleepRecord) :
    (-43200000 < (calculateDrift entries).sleepDrift ∧
      (calculateDrift entries).sleepDrift ≤ 43200000) ∧
    (-43200000 < (calculateDrift entries).wakeDrift ∧
      (calculateDrift entries).wakeDrift ≤ 43200000) := by
  match entries with
  | [] => norm_num [calculateDrift]
  | [e] => norm_num [calculateDrift]
  | e :: f :: es =>
    obtain ⟨⟨hs1, hs2⟩, hw1, hw2⟩ := driftTotals_bounds e (f :: es)
    have hn : (0 : ℚ) < ((f :: es).length : ℚ) := by
      push_cast [List.length_cons]
      positivity
    simp only [calculateDrift]
    constructor
    · constructor
      · rw [lt_div_iff₀ hn]
        calc (-43200000 : ℚ) * ((f :: es).length : ℚ)
            < -43199999 * ((f :: es).length : ℚ) := by
              have : (1 : ℚ) ≤ ((f :: es).length : ℚ) := by
                exact_mod_cast Nat.one_le_iff_ne_zero.mpr (by simp)
              nlinarith
          _ ≤ ((driftTotals e (f :: es)).1 : ℚ) := by exact_mod_cast hs1
      · rw [div_le_iff₀ hn]
        exact_mod_cast hs2
    · constructor
      · rw [lt_div_iff₀ hn]
        calc (-43200000 : ℚ) * ((f :: es).length : ℚ)
            < -43199999 * ((f :: es).length : ℚ) := by
              have : (1 : ℚ) ≤ ((f :: es).length : ℚ) := by
                exact_mod_cast Nat.one_le_iff_ne_zero.mpr (by simp)
              nlinarith
          _ ≤ ((driftTotals e (f :: es)).2.1 : ℚ) := by exact_mod_cast hw1
      · rw [div_le_iff₀ hn]
        exact_mod_cast hw2

/-- C5 (amended): for `n ≥ 2` entries, `calculateDrift` returns the
unweighted arithmetic mean of the `n - 1` per-pair folded drifts for
`sleepDrift` and `wakeDrift`; `avgRating`, however, divides the sum of
the ratings of the entries after the first (the loop starts at index 1
and never adds the first entry's rating) by the full count `n`. -/
theorem calculateDrift_averages (entries : List SleepRecord)
    (h : 2 ≤ entries.length) :
    (calculateDrift entries).sleepDrift =
      (((List.zipWith (fun a b => foldDiff (b.sleep - a.sleep))
          entries entries.tail).sum : ℤ) : ℚ) / ((entries.length : ℚ) - 1) ∧
    (calculateDrift entries).wakeDrift =
      (((List.zipWith (fun a b => foldDiff (b.wake - a.wake))
          entries entries.tail).sum : ℤ) : ℚ) / ((entries.length : ℚ) - 1) ∧
    (calculateDrift entries).avgRating =
      (entries.tail.map SleepRecord.rating).sum / (entries.length : ℚ) := by
  match entries with
  | e :: f :: es =>
    have ht := driftTotals_eq_sums e (f :: es)
    simp only [calculateDrift, List.tail_cons, ht, List.length_cons]
    push_cast
    have hden : ((es.length : ℚ) + 1 + 1) - 1 = (es.length : ℚ) + 1 := by ring
    rw [hden]
    exact ⟨rfl, rfl, rfl⟩

/-- Witness for C5 on a concrete three-entry list. -/
theorem calculateDrift_averages_witness :
    2 ≤ ([⟨0, 28800000, 5, ""⟩, ⟨86400000, 115200000, 3, ""⟩,
          ⟨172800000, 201600000, 4, ""⟩] : List SleepRecord).length ∧
    (calculateDrift [⟨0, 28800000, 5, ""⟩, ⟨86400000, 115200000, 3, ""⟩,
        ⟨172800000, 201600000, 4, ""⟩]).avgRating = (7 : ℚ) / 3 :=
  ⟨by norm_num,
    (calculateDrift_averages _ (by norm_num)).2.2.trans (by norm_num)⟩

/-- Counterexample for C5 as stated: on the two-entry list with
ratings 5 and 3 the claimed all-entry average is `(5 + 3) / 2 = 4`,
but `calculateDrift` returns `3 / 2` (it omits the first entry's
rating from the numerator while dividing by the full count). -/
theorem calculateDrift_avgRating_cex :
    ¬ ((calculateDrift [⟨0, 28800000, 5, ""⟩,
        ⟨86400000, 115200000, 3, ""⟩]).avgRating = ((5 : ℚ) + 3) / 2) := by
  simp only [calculateDrift, driftTotals]
  norm_num

/-! ### Cycle length -/

/-- The JavaScript remainder modulo 24h of a value smaller than 24h in
magnitude is the value itself. -/
theorem jsRemQ_small (a : ℚ) (h : |a| < 86400000) : jsRemQ a 86400000 = a := by
  obtain ⟨h1, h2⟩ := abs_lt.1 h
  unfold jsRemQ truncQ
  by_cases h0 : 0 ≤ a / 86400000
  · rw [if_pos h0, Int.floor_eq_zero_iff.2 ⟨h0, by rw [div_lt_one (by norm_num)]; exact h2⟩]
    norm_num
  · rw [if_neg h0, Int.ceil_eq_zero_iff.2 ⟨by rw [lt_div_iff₀ (by norm_num)]; linarith,
      le_of_lt (lt_of_not_le h0)⟩]
    norm_num

/-- C3 (amended): the cycle-length computation never divides by a
near-zero drift: a total drift below one minute in magnitude yields
cycle length 0; a remainder `totalDrift % 24h` of at least one minute
yields `round (24h / driftPerDay)` when the remainder is positive, and
`|round (24h / driftPerDay)|` when it is negative (which differs from
`round (24h / |driftPerDay|)` when the quotient is an exact negative
half-integer, because `Math.round` rounds halves toward positive
infinity); a drift of +30 minutes per day yields 48 days. -/
theorem cycleDays_spec :
    (∀ td : ℚ, |td| < 60000 → cycleDays td = 0) ∧
    (∀ td : ℚ, 60000 ≤ jsRemQ td 86400000 →
      cycleDays td = round ((86400000 : ℚ) / jsRemQ td 86400000)) ∧
    (∀ td : ℚ, jsRemQ td 86400000 ≤ -60000 →
      cycleDays td = |round ((86400000 : ℚ) / jsRemQ td 86400000)|) ∧
    cycleDays (30 * 60 * 1000 : ℚ) = 48 := by
  refine ⟨?_, ?_, ?_, ?_⟩
  · intro td h
    have hr : jsRemQ td 86400000 = td := jsRemQ_small td (h.trans (by norm_num))
    simp only [cycleDays, hr, ite_self]
    rw [if_pos h]
  · intro td h
    have h0 : jsRemQ td 86400000 ≠ 0 := by intro h'; rw [h'] at h; norm_num at h
    have habs : ¬ |jsRemQ td 86400000| < 60000 := by
      rw [abs_of_nonneg (by linarith)]
      linarith
    simp only [cycleDays, if_neg h0, if_neg habs]
    have hpos : 0 ≤ (86400000 : ℚ) / jsRemQ td 86400000 :=
      div_nonneg (by norm_num) (by linarith)
    rw [abs_of_nonneg]
    rw [round_eq]
    exact Int.floor_nonneg.2 (by linarith)
  · intro td h
    have h0 : jsRemQ td 86400000 ≠ 0 := by intro h'; rw [h'] at h; norm_num at h
    have habs : ¬ |jsRemQ td 86400000| < 60000 := by
      rw [abs_of_nonpos (by linarith)]
      linarith
    simp only [cycleDays, if_neg h0, if_neg habs]
  · have hr : jsRemQ (30 * 60 * 1000 : ℚ) 86400000 = 1800000 := by
      rw [show (30 * 60 * 1000 : ℚ) = 1800000 by norm_num]
      exact jsRemQ_small _ (by norm_num)
    simp only [cycleDays, hr, round_eq]
    norm_num [Rat.floor_def]

/-- Witness for C3 at the +30 minutes drift. -/
theorem cycleDays_spec_witness :
    (60000 : ℚ) ≤ jsRemQ (30 * 60 * 1000 : ℚ) 86400000 ∧
      cycleDays (30 * 60 * 1000 : ℚ) =
        round ((86400000 : ℚ) / jsRemQ (30 * 60 * 1000 : ℚ) 86400000) :=
  ⟨by rw [show (30 * 60 * 1000 : ℚ) = 1800000 by norm_num,
      jsRemQ_small _ (by norm_num)]; norm_num,
    cycleDays_spec.2.1 _ (by
      rw [show (30 * 60 * 1000 : ℚ) = 1800000 by norm_num,
        jsRemQ_small _ (by norm_num)]
      norm_num)⟩

/-- Counterexample for C3 as stated: for a total drift of -9.6 hours
(-34560000 ms) the code computes `|Math.round(24h / (-9.6h))| =
|round (-2.5)| = 2`, while `round (24h / |driftPerDay|) = round 2.5 =
3`. -/
theorem cycleDays_round_cex :
    ¬ (cycleDays (-34560000) =
        round ((86400000 : ℚ) / |jsRemQ (-34560000 : ℚ) 86400000|)) := by
  have hr : jsRemQ (-34560000 : ℚ) 86400000 = -34560000 :=
    jsRemQ_small _ (by norm_num)
  simp only [cycleDays, hr, round_eq]
  norm_num [Rat.floor_def]

/-! ### Main-sleep selection -/

/-- Hour and minute components lie in `[0, 24)` and `[0, 60)`. -/
theorem clock_components_range (tz t : ℤ) :
    0 ≤ getHours tz t ∧ getHours tz t < 24 ∧
    0 ≤ getMinutes tz t ∧ getMinutes tz t < 60 :=
  ⟨Int.emod_nonneg _ (by norm_num), Int.emod_lt_of_pos _ (by norm_num),
    Int.emod_nonneg _ (by norm_num), Int.emod_lt_of_pos _ (by norm_num)⟩

/-- The clock position `getHours + getMinutes / 60` lies in `[0, 24)`. -/
theorem clockPos_range (tz t : ℤ) :
    0 ≤ (getHours tz t : ℚ) + (getMinutes tz t : ℚ) / 60 ∧
    (getHours tz t : ℚ) + (getMinutes tz t : ℚ) / 60 < 24 := by
  obtain ⟨h1, h2, h3, h4⟩ := clock_components_range tz t
  have c1 : (0 : ℚ) ≤ (getHours tz t : ℚ) := by exact_mod_cast h1
  have c2 : (getHours tz t : ℚ) ≤ 23 := by exact_mod_cast Int.lt_add_one_iff.1 h2
  have c3 : (0 : ℚ) ≤ (getMinutes tz t : ℚ) := by exact_mod_cast h3
  have c4 : (getMinutes tz t : ℚ) ≤ 59 := by exact_mod_cast Int.lt_add_one_iff.1 h4
  constructor
  · linarith
  · linarith

/-- The wraparound-corrected duration metric is never negative. -/
theorem clockDuration_nonneg (tz : ℤ) (r : SleepRecord) :
    0 ≤ clockDuration tz r := by
  obtain ⟨hs1, hs2⟩ := clockPos_range tz r.sleep
  obtain ⟨hw1, hw2⟩ := clockPos_range tz r.wake
  simp only [clockDuration]
  split
  · linarith
  · linarith

/-- Characterisation of the longest-entry scan: either no entry beats
the initial threshold and the scan returns the initial accumulator, or
the scan returns the first entry attaining the maximal duration above
the threshold, and every entry of the list has duration at most the
returned one. -/
theorem foldl_selStep_char (tz : ℤ) :
    ∀ (l : List SleepRecord) (d : ℚ) (b : SleepRecord),
      (List.foldl (selStep tz) (d, b) l = (d, b) ∧
        ∀ e ∈ l, clockDuration tz e ≤ d) ∨
      (∃ l₁ l₂,
        l = l₁ ++ (List.foldl (selStep tz) (d, b) l).2 :: l₂ ∧
        (List.foldl (selStep tz) (d, b) l).1 =
          clockDuration tz (List.foldl (selStep tz) (d, b) l).2 ∧
        d < (List.foldl (selStep tz) (d, b) l).1 ∧
        (∀ e ∈ l₁, clockDuration tz e < (List.foldl (selStep tz) (d, b) l).1) ∧
        (∀ e ∈ l, clockDuration tz e ≤ (List.foldl (selStep tz) (d, b) l).1)) := by
  intro l
  induction l with
  | nil => intro d b; exact Or.inl ⟨rfl, by simp⟩
  | cons e es ih =>
    intro d b
    by_cases hc : clockDuration tz e > d
    · have hstep : selStep tz (d, b) e = (clockDuration tz e, e) := by
        simp [selStep, hc]
      rcases ih (clockDuration tz e) e with ⟨heq, hle⟩ | ⟨l₁, l₂, hsplit, hdur, hlt, hfirst, hmax⟩
      · refine Or.inr ⟨[], es, ?_, ?_, ?_, ?_, ?_⟩
        · simp [List.foldl_cons, hstep, heq]
        · simp [List.foldl_cons, hstep, heq]
        · simp only [List.foldl_cons, hstep, heq]
          exact hc
        · simp
        · intro x hx
          simp only [List.foldl_cons, hstep, heq]
          rcases List.mem_cons.1 hx with rfl | hx
          · exact le_refl _
          · exact hle x hx
      · refine Or.inr ⟨e :: l₁, l₂, ?_, ?_, ?_, ?_, ?_⟩
        · simp only [List.foldl_cons, hstep]
          rw [List.cons_append]
          exact congrArg (e :: ·) hsplit
        · simp only [List.foldl_cons, hstep]
          exact hdur
        · simp only [List.foldl_cons, hstep]
          exact lt_trans hc hlt
        · intro x hx
          simp only [List.foldl_cons, hstep]
          rcases List.mem_cons.1 hx with rfl | hx
          · exact hlt
          · exact hfirst x hx
        · intro x hx
          simp only [List.foldl_cons, hstep]
          rcases List.mem_cons.1 hx with rfl | hx
          · exact le_of_lt hlt
          · exact hmax x hx
    · have hstep : selStep tz (d, b) e = (d, b) := by
        simp [selStep, hc]
      have hle : clockDuration tz e ≤ d := le_of_not_lt hc
      rcases ih d b with ⟨heq, hles⟩ | ⟨l₁, l₂, hsplit, hdur, hlt, hfirst, hmax⟩
      · refine Or.inl ⟨?_, ?_⟩
        · simp [List.foldl_cons, hstep, heq]
        · intro x hx
          rcases List.mem_cons.1 hx with rfl | hx
          · exact hle
          · exact hles x hx
      · refine Or.inr ⟨e :: l₁, l₂, ?_, ?_, ?_, ?_, ?_⟩
        · simp only [List.foldl_cons, hstep]
          rw [List.cons_append]
          exact congrArg (e :: ·) hsplit
        · simp only [List.foldl_cons, hstep]
          exact hdur
        · simp only [List.foldl_cons, hstep]
          exact hlt
        · intro x hx
          simp only [List.foldl_cons, hstep]
          rcases List.mem_cons.1 hx with rfl | hx
          · exact lt_of_le_of_lt hle hlt
          · exact hfirst x hx
        · intro x hx
          simp only [List.foldl_cons, hstep]
          rcases List.mem_cons.1 hx with rfl | hx
          · exact le_of_lt (lt_of_le_of_lt hle hlt)
          · exact hmax x hx

/-- Concrete duration of the 01:00-03:00 record. -/
theorem clockDuration_recA :
    clockDuration 0 ⟨3600000, 10800000, 3, ""⟩ = 2 := by
  norm_num [clockDuration, getHours, getMinutes]

/-- Concrete duration of the 04:00-12:00 record. -/
theorem clockDuration_recB :
    clockDuration 0 ⟨14400000, 43200000, 3, ""⟩ = 8 := by
  norm_num [clockDuration, getHours, getMinutes]

/-- Concrete duration of the 13:00-14:00 record. -/
theorem clockDuration_recC :
    clockDuration 0 ⟨46800000, 50400000, 3, ""⟩ = 1 := by
  norm_num [clockDuration, getHours, getMinutes]

/-- C4: the main sleep selected from a nonempty day group is the entry
with the greatest wraparound-corrected wake-minus-sleep duration, ties
broken in favour of the first-encountered entry (every earlier entry
has strictly smaller duration, every entry of the group has duration
at most the selected one); the duration metric is wraparound
corrected, never negative, and gives 2 hours to a record sleeping at
23:00 and waking at 01:00; on a day with entries of durations
`{2h, 8h, 1h}` the 8-hour entry is selected in all six insertion
orders. -/
theorem mainSleepOfDay_spec :
    (∀ (tz : ℤ) (l : List SleepRecord) (m : SleepRecord),
      mainSleepOfDay tz l = some m →
        (∃ l₁ l₂, l = l₁ ++ m :: l₂ ∧
          ∀ e ∈ l₁, clockDuration tz e < clockDuration tz m) ∧
        (∀ e ∈ l, clockDuration tz e ≤ clockDuration tz m)) ∧
    (∀ (tz : ℤ) (r : SleepRecord), 0 ≤ clockDuration tz r) ∧
    clockDuration 0 ⟨82800000, 90000000, 3, ""⟩ = 2 ∧
    (∀ l ∈ [[⟨3600000, 10800000, 3, ""⟩, ⟨14400000, 43200000, 3, ""⟩,
             ⟨46800000, 50400000, 3, ""⟩],
            [⟨3600000, 10800000, 3, ""⟩, ⟨46800000, 50400000, 3, ""⟩,
             ⟨14400000, 43200000, 3, ""⟩],
            [⟨14400000, 43200000, 3, ""⟩, ⟨3600000, 10800000, 3, ""⟩,
             ⟨46800000, 50400000, 3, ""⟩],
            [⟨14400000, 43200000, 3, ""⟩, ⟨46800000, 50400000, 3, ""⟩,
             ⟨3600000, 10800000, 3, ""⟩],
            [⟨46800000, 50400000, 3, ""⟩, ⟨3600000, 10800000, 3, ""⟩,
             ⟨14400000, 43200000, 3, ""⟩],
            [⟨46800000, 50400000, 3, ""⟩, ⟨14400000, 43200000, 3, ""⟩,
             ⟨3600000, 10800000, 3, ""⟩]],
      mainSleepOfDay 0 l = some ⟨14400000, 43200000, 3, ""⟩) := by
  refine ⟨?_, clockDuration_nonneg, ?_, ?_⟩
  · intro tz l m hm
    match l, hm with
    | [e], hm =>
      have he : m = e := by
        simp only [mainSleepOfDay] at hm
        exact (Option.some_injective _ hm).symm
      subst he
      exact ⟨⟨[], [], rfl, by simp⟩, by simp⟩
    | e :: f :: es, hm =>
      have he : m = (List.foldl (selStep tz) (0, e) (e :: f :: es)).2 := by
        simp only [mainSleepOfDay] at hm
        exact (Option.some_injective _ hm).symm
      subst he
      rcases foldl_selStep_char tz (e :: f :: es) 0 e with
        ⟨heq, hle⟩ | ⟨l₁, l₂, hsplit, hdur, hlt, hfirst, hmax⟩
      · rw [heq]
        refine ⟨⟨[], f :: es, rfl, by simp⟩, ?_⟩
        intro x hx
        exact le_trans (hle x hx) (clockDuration_nonneg tz e)
      · refine ⟨⟨l₁, l₂, hsplit, fun x hx => ?_⟩, fun x hx => ?_⟩
        · rw [← hdur]
          exact hfirst x hx
        · rw [← hdur]
          exact hmax x hx
  · norm_num [clockDuration, getHours, getMinutes]
  · intro l hl
    fin_cases hl <;>
      norm_num [mainSleepOfDay, selStep, List.foldl_cons, clockDuration_recA,
        clockDuration_recB, clockDuration_recC]

/-- Witness for C4: the 8-hour entry is selected from the concrete
three-entry day and satisfies the maximality and tie-break shape. -/
theorem mainSleepOfDay_spec_witness :
    mainSleepOfDay 0 [⟨3600000, 10800000, 3, ""⟩, ⟨14400000, 43200000, 3, ""⟩,
        ⟨46800000, 50400000, 3, ""⟩] = some ⟨14400000, 43200000, 3, ""⟩ ∧
    ((∃ l₁ l₂, [⟨3600000, 10800000, 3, ""⟩, ⟨14400000, 43200000, 3, ""⟩,
        (⟨46800000, 50400000, 3, ""⟩ : SleepRecord)] =
          l₁ ++ (⟨14400000, 43200000, 3, ""⟩ : SleepRecord) :: l₂ ∧
        ∀ e ∈ l₁, clockDuration 0 e < clockDuration 0 ⟨14400000, 43200000, 3, ""⟩) ∧
      (∀ e ∈ [⟨3600000, 10800000, 3, ""⟩, ⟨14400000, 43200000, 3, ""⟩,
          (⟨46800000, 50400000, 3, ""⟩ : SleepRecord)],
        clockDuration 0 e ≤ clockDuration 0 ⟨14400000, 43200000, 3, ""⟩)) := by
  have h : mainSleepOfDay 0 [⟨3600000, 10800000, 3, ""⟩, ⟨14400000, 43200000, 3, ""⟩,
      ⟨46800000, 50400000, 3, ""⟩] = some ⟨14400000, 43200000, 3, ""⟩ := by
    norm_num [mainSleepOfDay, selStep, List.foldl_cons, clockDuration_recA,
      clockDuration_recB, clockDuration_recC]
  exact ⟨h, mainSleepOfDay_spec.1 0 _ _ h⟩

/-- Adding whole days to a timestamp does not change its local hour. -/
theorem getHours_add_days (tz t k : ℤ) :
    getHours tz (t + 86400000 * k) = getHours tz t := by
  unfold getHours
  have h : t + 86400000 * k + tz = (t + tz) + (24 * k) * 3600000 := by ring
  rw [h, Int.add_mul_ediv_right _ _ (by norm_num : (3600000 : ℤ) ≠ 0)]
  omega

/-- Adding whole days to a timestamp does not change its local
minutes. -/
theorem getMinutes_add_days (tz t k : ℤ) :
    getMinutes tz (t + 86400000 * k) = getMinutes tz t := by
  unfold getMinutes
  have h : t + 86400000 * k + tz = (t + tz) + (1440 * k) * 60000 := by ring
  rw [h, Int.add_mul_ediv_right _ _ (by norm_num : (60000 : ℤ) ≠ 0)]
  omega

/-- C10: the ranking metric of `getMainSleepEntries` depends only on
the hour-and-minute clock components of the two timestamps (seconds
and date components are ignored), so shifting a wake time by any whole
number of days leaves the metric unchanged; in particular an 8-hour
record and the 32-hour record sharing its clock times measure equal
(both 8). -/
theorem clockDuration_components :
    (∀ (tz : ℤ) (r₁ r₂ : SleepRecord),
      getHours tz r₁.sleep = getHours tz r₂.sleep →
      getMinutes tz r₁.sleep = getMinutes tz r₂.sleep →
      getHours tz r₁.wake = getHours tz r₂.wake →
      getMinutes tz r₁.wake = getMinutes tz r₂.wake →
      clockDuration tz r₁ = clockDuration tz r₂) ∧
    (∀ (tz : ℤ) (r : SleepRecord) (k : ℤ),
      clockDuration tz ⟨r.sleep, r.wake + 86400000 * k, r.rating, r.note⟩ =
        clockDuration tz r) ∧
    clockDuration 0 ⟨0, 28800000, 3, ""⟩ = 8 ∧
    clockDuration 0 ⟨0, 28800000 + 86400000, 3, ""⟩ = 8 := by
  refine ⟨?_, ?_, ?_, ?_⟩
  · intro tz r₁ r₂ h1 h2 h3 h4
    simp only [clockDuration, h1, h2, h3, h4]
  · intro tz r k
    simp only [clockDuration, getHours_add_days, getMinutes_add_days]
  · norm_num [clockDuration, getHours, getMinutes]
  · norm_num [clockDuration, getHours, getMinutes]

/-- Witness for C10: the 8-hour and 32-hour records with equal clock
components compare equal. -/
theorem clockDuration_components_witness :
    getHours 0 (⟨0, 115200000, 3, ""⟩ : SleepRecord).sleep =
      getHours 0 (⟨0, 28800000, 3, ""⟩ : SleepRecord).sleep ∧
    getMinutes 0 (⟨0, 115200000, 3, ""⟩ : SleepRecord).sleep =
      getMinutes 0 (⟨0, 28800000, 3, ""⟩ : SleepRecord).sleep ∧
    getHours 0 (⟨0, 115200000, 3, ""⟩ : SleepRecord).wake =
      getHours 0 (⟨0, 28800000, 3, ""⟩ : SleepRecord).wake ∧
    getMinutes 0 (⟨0, 115200000, 3, ""⟩ : SleepRecord).wake =
      getMinutes 0 (⟨0, 28800000, 3, ""⟩ : SleepRecord).wake ∧
    clockDuration 0 ⟨0, 115200000, 3, ""⟩ = clockDuration 0 ⟨0, 28800000, 3, ""⟩ := by
  have h1 : getHours 0 (⟨0, 115200000, 3, ""⟩ : SleepRecord).sleep =
      getHours 0 (⟨0, 28800000, 3, ""⟩ : SleepRecord).sleep := by decide
  have h2 : getMinutes 0 (⟨0, 115200000, 3, ""⟩ : SleepRecord).sleep =
      getMinutes 0 (⟨0, 28800000, 3, ""⟩ : SleepRecord).sleep := by decide
  have h3 : getHours 0 (⟨0, 115200000, 3, ""⟩ : SleepRecord).wake =
      getHours 0 (⟨0, 28800000, 3, ""⟩ : SleepRecord).wake := by decide
  have h4 : getMinutes 0 (⟨0, 115200000, 3, ""⟩ : SleepRecord).wake =
      getMinutes 0 (⟨0, 28800000, 3, ""⟩ : SleepRecord).wake := by decide
  exact ⟨h1, h2, h3, h4, clockDuration_components.1 0 _ _ h1 h2 h3 h4⟩

/-! ### Day grouping -/

/-- Inserting under a fresh key appends a new singleton group. -/
theorem insertByDay_not_mem (k : ℤ) (r : SleepRecord)
    (m : List (ℤ × List SleepRecord)) (h : k ∉ m.map Prod.fst) :
    insertByDay k r m = m ++ [(k, [r])] := by
  induction m with
  | nil => rfl
  | cons p rest ih =>
    obtain ⟨k', g⟩ := p
    simp only [List.map_cons, List.mem_cons] at h
    push_neg at h
    simp only [insertByDay, if_neg (fun hk : k' = k => h.1 hk.symm), List.cons_append,
      List.cons.injEq, true_and]
    exact ih h.2

/-- Inserting under an existing key (keys being distinct) appends the
record to that key's group and leaves every other group unchanged. -/
theorem insertByDay_mem (k : ℤ) (r : SleepRecord)
    (m : List (ℤ × List SleepRecord)) (hnd : (m.map Prod.fst).Nodup)
    (h : k ∈ m.map Prod.fst) :
    insertByDay k r m =
      m.map (fun p => if p.1 = k then (p.1, p.2 ++ [r]) else p) := by
  induction m with
  | nil => simp at h
  | cons p rest ih =>
    obtain ⟨k', g⟩ := p
    simp only [List.map_cons, List.nodup_cons] at hnd
    by_cases hk : k' = k
    · subst hk
      have hrest : rest.map
          (fun p => if p.1 = k' then (p.1, p.2 ++ [r]) else p) = rest := by
        conv_rhs => rw [← List.map_id rest]
        apply List.map_congr_left
        intro q hq
        have hne : q.1 ≠ k' := by
          intro he
          exact hnd.1 (he ▸ List.mem_map_of_mem Prod.fst hq)
        simp [hne]
      simp [insertByDay, hrest]
    · have h2 : k ∈ rest.map Prod.fst := by
        simp only [List.map_cons, List.mem_cons] at h
        rcases h with h | h
        · exact absurd h.symm hk
        · exact h
      simp [insertByDay, hk, ih hnd.2 h2]

/-- Keys are unchanged when inserting under an existing key. -/
theorem insertByDay_keys_mem (k : ℤ) (r : SleepRecord)
    (m : List (ℤ × List SleepRecord)) (hnd : (m.map Prod.fst).Nodup)
    (h : k ∈ m.map Prod.fst) :
    (insertByDay k r m).map Prod.fst = m.map Prod.fst := by
  rw [insertByDay_mem k r m hnd h, List.map_map]
  have hcomp : (Prod.fst ∘ fun p : ℤ × List SleepRecord =>
      if p.1 = k then (p.1, p.2 ++ [r]) else p) = Prod.fst := by
    funext p
    by_cases hp : p.1 = k <;> simp [hp]
  rw [hcomp]

/-- Invariant of the grouping fold: starting from a state whose groups
are exactly the filters of the already-processed records, with
distinct keys that are exactly the keys occurring among the processed
records, the fold over the remaining records preserves all of it. -/
theorem groupByDay_invariant (l : List SleepRecord) :
    ∀ (processed : List SleepRecord) (m : List (ℤ × List SleepRecord)),
      (m.map Prod.fst).Nodup →
      (∀ p ∈ m, p.2 = processed.filter (fun x => dateKey x.sleep = p.1)) →
      (∀ x ∈ processed, dateKey x.sleep ∈ m.map Prod.fst) →
      (∀ k ∈ m.map Prod.fst, ∃ x ∈ processed, dateKey x.sleep = k) →
      (((l.foldl (fun m r => insertByDay (dateKey r.sleep) r m) m).map
          Prod.fst).Nodup ∧
        (∀ p ∈ l.foldl (fun m r => insertByDay (dateKey r.sleep) r m) m,
          p.2 = (processed ++ l).filter (fun x => dateKey x.sleep = p.1)) ∧
        (∀ x ∈ processed ++ l, dateKey x.sleep ∈
          (l.foldl (fun m r => insertByDay (dateKey r.sleep) r m) m).map Prod.fst) ∧
        (∀ k ∈ (l.foldl (fun m r => insertByDay (dateKey r.sleep) r m) m).map
            Prod.fst, ∃ x ∈ processed ++ l, dateKey x.sleep = k)) := by
  induction l with
  | nil =>
    intro processed m h1 h2 h3 h4
    simp only [List.foldl_nil, List.append_nil]
    exact ⟨h1, h2, h3, h4⟩
  | cons r rs ih =>
    intro processed m h1 h2 h3 h4
    by_cases hmem : dateKey r.sleep ∈ m.map Prod.fst
    · have hkeys := insertByDay_keys_mem (dateKey r.sleep) r m h1 hmem
      have hins := insertByDay_mem (dateKey r.sleep) r m h1 hmem
      have g1 : ((insertByDay (dateKey r.sleep) r m).map Prod.fst).Nodup := by
        rw [hkeys]; exact h1
      have g2 : ∀ p ∈ insertByDay (dateKey r.sleep) r m,
          p.2 = (processed ++ [r]).filter (fun x => dateKey x.sleep = p.1) := by
        rw [hins]
        intro p hp
        obtain ⟨q, hq, rfl⟩ := List.mem_map.1 hp
        by_cases hqk : q.1 = dateKey r.sleep
        · simp [hqk, h2 q hq, List.filter_append, List.filter_cons]
        · have hrk : ¬ (dateKey r.sleep = q.1) := fun he => hqk he.symm
          simp [hqk, hrk, h2 q hq, List.filter_append, List.filter_cons]
      have g3 : ∀ x ∈ processed ++ [r], dateKey x.sleep ∈
          (insertByDay (dateKey r.sleep) r m).map Prod.fst := by
        rw [hkeys]
        intro x hx
        rcases List.mem_append.1 hx with hx | hx
        · exact h3 x hx
        · rw [List.mem_singleton.1 hx]
          exact hmem
      have g4 : ∀ k ∈ (insertByDay (dateKey r.sleep) r m).map Prod.fst,
          ∃ x ∈ processed ++ [r], dateKey x.sleep = k := by
        rw [hkeys]
        intro k hk
        obtain ⟨x, hx, he⟩ := h4 k hk
        exact ⟨x, List.mem_append_left _ hx, he⟩
      have hres := ih (processed ++ [r]) (insertByDay (dateKey r.sleep) r m)
        g1 g2 g3 g4
      simpa only [List.foldl_cons, List.append_assoc, List.singleton_append]
        using hres
    · have hins := insertByDay_not_mem (dateKey r.sleep) r m hmem
      have hkeys : (insertByDay (dateKey r.sleep) r m).map Prod.fst =
          m.map Prod.fst ++ [dateKey r.sleep] := by
        rw [hins, List.map_append]
        rfl
      have g1 : ((insertByDay (dateKey r.sleep) r m).map Prod.fst).Nodup := by
        rw [hkeys, List.nodup_append]
        exact ⟨h1, List.nodup_singleton _, by
          intro a ha hb
          rw [List.mem_singleton.1 hb] at ha
          exact hmem ha⟩
      have g2 : ∀ p ∈ insertByDay (dateKey r.sleep) r m,
          p.2 = (processed ++ [r]).filter (fun x => dateKey x.sleep = p.1) := by
        rw [hins]
        intro p hp
        rcases List.mem_append.1 hp with hp | hp
        · have hrk : ¬ (dateKey r.sleep = p.1) := by
            intro he
            exact hmem (he ▸ List.mem_map_of_mem Prod.fst hp)
          simp [hrk, h2 p hp, List.filter_append, List.filter_cons]
        · have hpe := List.mem_singleton.1 hp
          subst hpe
          have hempty : processed.filter
              (fun x => dateKey x.sleep = dateKey r.sleep) = [] := by
            rw [List.filter_eq_nil_iff]
            intro x hx
            simp only [decide_eq_true_eq]
            intro he
            exact hmem (he ▸ h3 x hx)
          simp [List.filter_append, List.filter_cons, hempty]
      have g3 : ∀ x ∈ processed ++ [r], dateKey x.sleep ∈
          (insertByDay (dateKey r.sleep) r m).map Prod.fst := by
        rw [hkeys]
        intro x hx
        rcases List.mem_append.1 hx with hx | hx
        · exact List.mem_append_left _ (h3 x hx)
        · rw [List.mem_singleton.1 hx]
          exact List.mem_append_right _ (List.mem_singleton_self _)
      have g4 : ∀ k ∈ (insertByDay (dateKey r.sleep) r m).map Prod.fst,
          ∃ x ∈ processed ++ [r], dateKey x.sleep = k := by
        rw [hkeys]
        intro k hk
        rcases List.mem_append.1 hk with hk | hk
        · obtain ⟨x, hx, he⟩ := h4 k hk
          exact ⟨x, List.mem_append_left _ hx, he⟩
        · exact ⟨r, List.mem_append_right _ (List.mem_singleton_self _),
            (List.mem_singleton.1 hk).symm⟩
      have hres := ih (processed ++ [r]) (insertByDay (dateKey r.sleep) r m)
        g1 g2 g3 g4
      simpa only [List.foldl_cons, List.append_assoc, List.singleton_append]
        using hres

/-- The characterisation of `groupByDay`: distinct keys, each group is
the filter of the input at its key, and the keys are exactly the sleep
date keys occurring in the input. -/
theorem groupByDay_char (l : List SleepRecord) :
    ((groupByDay l).map Prod.fst).Nodup ∧
    (∀ p ∈ groupByDay l, p.2 = l.filter (fun x => dateKey x.sleep = p.1)) ∧
    (∀ x ∈ l, dateKey x.sleep ∈ (groupByDay l).map Prod.fst) ∧
    (∀ k ∈ (groupByDay l).map Prod.fst, ∃ x ∈ l, dateKey x.sleep = k) := by
  have h := groupByDay_invariant l [] [] (by simp) (by simp) (by simp) (by simp)
  simpa [groupByDay] using h

/-- Inserting a record adds it, up to permutation, at the end of the
concatenation of all groups. -/
theorem insertByDay_join_perm (k : ℤ) (r : SleepRecord)
    (m : List (ℤ × List SleepRecord)) :
    ((insertByDay k r m).map Prod.snd).flatten.Perm
      ((m.map Prod.snd).flatten ++ [r]) := by
  induction m with
  | nil => simp [insertByDay]
  | cons p rest ih =>
    obtain ⟨k', g⟩ := p
    by_cases hk : k' = k
    · subst hk
      simp only [insertByDay, eq_self_iff_true, if_true, List.map_cons,
        List.flatten_cons]
      rw [List.append_assoc, List.append_assoc]
      exact List.Perm.append_left g List.perm_append_comm
    · simp only [insertByDay, if_neg hk, List.map_cons, List.flatten_cons]
      rw [List.append_assoc]
      exact List.Perm.append_left g ih

/-- The concatenation of the groups is a permutation of the input. -/
theorem groupByDay_join_perm (l : List SleepRecord) :
    ∀ m : List (ℤ × List SleepRecord),
      ((l.foldl (fun m r => insertByDay (dateKey r.sleep) r m) m).map
        Prod.snd).flatten.Perm ((m.map Prod.snd).flatten ++ l) := by
  induction l with
  | nil => intro m; simp
  | cons r rs ih =>
    intro m
    simp only [List.foldl_cons]
    refine (ih (insertByDay (dateKey r.sleep) r m)).trans ?_
    refine ((insertByDay_join_perm (dateKey r.sleep) r m).append_right rs).trans ?_
    rw [List.append_assoc, List.singleton_append]

/-- Summing a function per group and then over the groups equals
summing over the concatenation of the groups. -/
theorem sum_over_groups (f : SleepRecord → ℚ)
    (m : List (ℤ × List SleepRecord)) :
    (m.map (fun p => (p.2.map f).sum)).sum = ((m.map Prod.snd).flatten.map f).sum := by
  induction m with
  | nil => rfl
  | cons p rest ih => simp [List.flatten_cons, List.sum_append, ih]

/-- The two-level sum of the average computation equals the plain sum
over all records. -/
theorem groupByDay_sum (l : List SleepRecord) (f : SleepRecord → ℚ) :
    ((groupByDay l).map (fun p => (p.2.map f).sum)).sum = (l.map f).sum := by
  rw [sum_over_groups]
  have hp : ((groupByDay l).map Prod.snd).flatten.Perm l := by
    have h := groupByDay_join_perm l []
    simpa [groupByDay] using h
  exact (hp.map f).sum_eq

/-- C7: the average-sleep-per-day computation groups all records (naps
included) by the calendar day of their sleep timestamp, sums the
wake-minus-sleep durations within each day, and divides the grand
total — which equals the plain sum over all records — by the number of
days that have at least one record (the group keys are exactly the
sleep-day keys occurring in the data, without duplicates); over two
days with one 7h and one 9h entry it returns 8h, and over an empty
record set the division is `0 / 0`, a non-number rather than a
crash. -/
theorem avgSleepPerDayMs_spec :
    avgSleepPerDayMs [] = none ∧
    (∀ l : List SleepRecord, l ≠ [] →
      avgSleepPerDayMs l =
        some ((l.map (fun r => ((r.wake - r.sleep : ℤ) : ℚ))).sum /
          ((groupByDay l).length : ℚ))) ∧
    (∀ l : List SleepRecord,
      ((groupByDay l).map Prod.fst).Nodup ∧
      (∀ k : ℤ, k ∈ (groupByDay l).map Prod.fst ↔ ∃ x ∈ l, dateKey x.sleep = k)) ∧
    avgSleepPerDayMs [⟨0, 25200000, 3, ""⟩, ⟨86400000, 118800000, 3, ""⟩] =
      some 28800000 := by
  refine ⟨?_, ?_, ?_, ?_⟩
  · simp [avgSleepPerDayMs, groupByDay, jsDiv]
  · intro l hl
    have hne : groupByDay l ≠ [] := by
      obtain ⟨r, hr⟩ := List.exists_mem_of_ne_nil l hl
      have hc := (groupByDay_char l).2.2.1 r hr
      intro hemp
      rw [hemp] at hc
      simp at hc
    have hlen : ((groupByDay l).length : ℚ) ≠ 0 := by
      have := List.length_pos.2 hne
      positivity
    simp only [avgSleepPerDayMs, jsDiv, if_neg hlen, groupByDay_sum]
  · intro l
    obtain ⟨hnd, _, hcov, himg⟩ := groupByDay_char l
    refine ⟨hnd, fun k => ⟨himg k, ?_⟩⟩
    rintro ⟨x, hx, rfl⟩
    exact hcov x hx
  · norm_num [avgSleepPerDayMs, groupByDay, insertByDay, dateKey, jsDiv]

/-- Witness for C7 on the concrete two-day data set. -/
theorem avgSleepPerDayMs_spec_witness :
    ([⟨0, 25200000, 3, ""⟩, ⟨86400000, 118800000, 3, ""⟩] :
        List SleepRecord) ≠ [] ∧
    avgSleepPerDayMs [⟨0, 25200000, 3, ""⟩, ⟨86400000, 118800000, 3, ""⟩] =
      some ((([⟨0, 25200000, 3, ""⟩, ⟨86400000, 118800000, 3, ""⟩] :
          List SleepRecord).map
            (fun r => ((r.wake - r.sleep : ℤ) : ℚ))).sum /
        ((groupByDay [⟨0, 25200000, 3, ""⟩,
          ⟨86400000, 118800000, 3, ""⟩]).length : ℚ)) :=
  ⟨by simp, avgSleepPerDayMs_spec.2.1 _ (by simp)⟩

/-- C8 (amended): every record belongs to exactly one day group of
`groupByDay`, and each group's key is the calendar date of its
members' `sleep` timestamps (never `wake`) — with the date taken in
UTC via `toISOString`, not in the timestamp's original zone. -/
theorem groupByDay_unique_group (l : List SleepRecord) (r : SleepRecord)
    (hr : r ∈ l) :
    (∃! p : ℤ × List SleepRecord, p ∈ groupByDay l ∧ r ∈ p.2) ∧
    (∀ p ∈ groupByDay l, ∀ x ∈ p.2, p.1 = dateKey x.sleep) := by
  obtain ⟨hnd, hfil, hcov, himg⟩ := groupByDay_char l
  have hkey : ∀ p ∈ groupByDay l, ∀ x ∈ p.2, p.1 = dateKey x.sleep := by
    intro p hp x hx
    rw [hfil p hp] at hx
    have h := (List.mem_filter.1 hx).2
    simp only [decide_eq_true_eq] at h
    exact h.symm
  refine ⟨?_, hkey⟩
  obtain ⟨p, hp, hpk⟩ := List.mem_map.1 (hcov r hr)
  refine ⟨p, ⟨hp, ?_⟩, ?_⟩
  · rw [hfil p hp]
    refine List.mem_filter.2 ⟨hr, ?_⟩
    simp [hpk]
  · rintro q ⟨hq, hrq⟩
    have hq1 : q.1 = dateKey r.sleep := hkey q hq r hrq
    have hq2 : q.2 = p.2 := by rw [hfil q hq, hfil p hp, hq1, hpk]
    exact Prod.ext (hq1.trans hpk.symm) hq2

/-- Witness for C8 on a concrete two-record list sharing a day. -/
theorem groupByDay_unique_group_witness :
    (⟨3600000, 10800000, 3, ""⟩ : SleepRecord) ∈
      ([⟨3600000, 10800000, 3, ""⟩, ⟨14400000, 43200000, 3, ""⟩] :
        List SleepRecord) ∧
    ((∃! p : ℤ × List SleepRecord,
        p ∈ groupByDay [⟨3600000, 10800000, 3, ""⟩,
          ⟨14400000, 43200000, 3, ""⟩] ∧
        (⟨3600000, 10800000, 3, ""⟩ : SleepRecord) ∈ p.2) ∧
      (∀ p ∈ groupByDay [⟨3600000, 10800000, 3, ""⟩,
          ⟨14400000, 43200000, 3, ""⟩],
        ∀ x ∈ p.2, p.1 = dateKey x.sleep)) :=
  ⟨by simp, groupByDay_unique_group _ _ (by simp)⟩

/-- Counterexample for C8 as stated: a record whose ISO sleep
timestamp reads 1970-01-02T01:00+02:00 (UTC instant 82800000 ms =
1970-01-01T23:00Z, original-zone offset +2h) is grouped under the UTC
date, day 0, while the date in the timestamp's original zone is day 1:
the grouping key is not the original-zone calendar date. -/
theorem groupByDay_zone_cex :
    groupByDay [⟨82800000, 90000000, 3, ""⟩] =
      [(0, [⟨82800000, 90000000, 3, ""⟩])] ∧
    dateKey 82800000 = 0 ∧
    dateKeySpecZone 82800000 7200000 = 1 ∧
    (0 : ℤ) ≠ 1 := by
  refine ⟨?_, by decide, by decide, by decide⟩
  rfl

/-! ### Prediction engine -/

/-- Shifting by an integer multiple of the period leaves `qmod`
unchanged. -/
theorem qmod_add_mul_int (x c : ℚ) (k : ℤ) (hc : c ≠ 0) :
    qmod (x + c * (k : ℚ)) c = qmod x c := by
  unfold qmod
  have h : (x + c * (k : ℚ)) / c = x / c + (k : ℚ) := by
    field_simp
    ring
  rw [h, Int.floor_add_int]
  push_cast
  ring

/-- `qmod` of an integer multiple of one minute vanishes. -/
theorem qmod_minute_mul (M : ℤ) : qmod ((60000 * M : ℤ) : ℚ) 60000 = 0 := by
  have h := qmod_add_mul_int 0 60000 M (by norm_num)
  have h0 : qmod 0 60000 = 0 := by
    simp [qmod]
  rw [show ((60000 * M : ℤ) : ℚ) = 0 + 60000 * (M : ℚ) by push_cast; ring]
  rw [h, h0]

/-- Dropping a whole number of days from the front of a `qmod` by
24h. -/
theorem qmod_day_shift (E : ℤ) (x : ℚ) :
    qmod (86400000 * (E : ℚ) + x) 86400000 = qmod x 86400000 := by
  rw [show (86400000 : ℚ) * (E : ℚ) + x = x + 86400000 * (E : ℚ) by ring]
  exact qmod_add_mul_int x 86400000 E (by norm_num)

/-- Bounds of the scaled floor. -/
theorem floor_scaled_bounds (x c : ℚ) (hc : 0 < c) :
    c * (⌊x / c⌋ : ℚ) ≤ x ∧ x < c * (⌊x / c⌋ : ℚ) + c := by
  have h1 := Int.floor_le (x / c)
  have h2 := Int.lt_floor_add_one (x / c)
  have hx : c * (x / c) = x := by field_simp
  constructor
  · nlinarith [mul_le_mul_of_nonneg_left h1 hc.le]
  · nlinarith [mul_lt_mul_of_pos_left h2 hc]

/-- Decomposition of `setHours` followed by `setMinutes`: the result
keeps the local day and the sub-minute part of the input and replaces
the hour and minute components. -/
theorem setHM_decomp (tz h m : ℤ) (t : ℚ) :
    setMinutesQ tz (setHoursQ tz t h) m + (tz : ℚ) =
      86400000 * ((⌊(t + (tz : ℚ)) / 86400000⌋ : ℤ) : ℚ) +
        ((h * 3600000 + m * 60000 : ℤ) : ℚ) + qmod (t + (tz : ℚ)) 60000 := by
  obtain ⟨ha1, ha2⟩ := floor_scaled_bounds (t + (tz : ℚ)) 3600000 (by norm_num)
  obtain ⟨hb1, hb2⟩ := floor_scaled_bounds (t + (tz : ℚ)) 60000 (by norm_num)
  obtain ⟨hD1, hD2⟩ := floor_scaled_bounds (t + (tz : ℚ)) 86400000 (by norm_num)
  have hab : ⌊(t + (tz : ℚ)) / 3600000⌋ = ⌊(t + (tz : ℚ)) / 60000⌋ / 60 := by
    have h1 : 3600000 * (⌊(t + (tz : ℚ)) / 3600000⌋ : ℚ) <
        60000 * (⌊(t + (tz : ℚ)) / 60000⌋ : ℚ) + 60000 := by linarith
    have h2 : 60000 * (⌊(t + (tz : ℚ)) / 60000⌋ : ℚ) <
        3600000 * (⌊(t + (tz : ℚ)) / 3600000⌋ : ℚ) + 3600000 := by linarith
    have h1i : 3600000 * ⌊(t + (tz : ℚ)) / 3600000⌋ <
        60000 * ⌊(t + (tz : ℚ)) / 60000⌋ + 60000 := by exact_mod_cast h1
    have h2i : 60000 * ⌊(t + (tz : ℚ)) / 60000⌋ <
        3600000 * ⌊(t + (tz : ℚ)) / 3600000⌋ + 3600000 := by exact_mod_cast h2
    omega
  have hDb : ⌊(t + (tz : ℚ)) / 86400000⌋ = ⌊(t + (tz : ℚ)) / 60000⌋ / 1440 := by
    have h1 : 86400000 * (⌊(t + (tz : ℚ)) / 86400000⌋ : ℚ) <
        60000 * (⌊(t + (tz : ℚ)) / 60000⌋ : ℚ) + 60000 := by linarith
    have h2 : 60000 * (⌊(t + (tz : ℚ)) / 60000⌋ : ℚ) <
        86400000 * (⌊(t + (tz : ℚ)) / 86400000⌋ : ℚ) + 86400000 := by linarith
    have h1i : 86400000 * ⌊(t + (tz : ℚ)) / 86400000⌋ <
        60000 * ⌊(t + (tz : ℚ)) / 60000⌋ + 60000 := by exact_mod_cast h1
    have h2i : 60000 * ⌊(t + (tz : ℚ)) / 60000⌋ <
        86400000 * ⌊(t + (tz : ℚ)) / 86400000⌋ + 86400000 := by exact_mod_cast h2
    omega
  have ht1 : setHoursQ tz t h + (tz : ℚ) =
      (t + (tz : ℚ)) +
        ((h - ⌊(t + (tz : ℚ)) / 3600000⌋ % 24 : ℤ) : ℚ) * 3600000 := by
    simp only [setHoursQ, getHoursQ]
    push_cast
    ring
  have hfloor1 : ⌊(setHoursQ tz t h + (tz : ℚ)) / 60000⌋ =
      ⌊(t + (tz : ℚ)) / 60000⌋ +
        (h - ⌊(t + (tz : ℚ)) / 3600000⌋ % 24) * 60 := by
    rw [show (setHoursQ tz t h + (tz : ℚ)) / 60000 =
        (t + (tz : ℚ)) / 60000 +
          (((h - ⌊(t + (tz : ℚ)) / 3600000⌋ % 24) * 60 : ℤ) : ℚ) by
      rw [ht1]
      push_cast
      ring]
    rw [Int.floor_add_int]
  have hmin : getMinutesQ tz (setHoursQ tz t h) =
      ⌊(t + (tz : ℚ)) / 60000⌋ % 60 := by
    simp only [getMinutesQ]
    rw [hfloor1]
    omega
  have hfinal : setMinutesQ tz (setHoursQ tz t h) m + (tz : ℚ) =
      (t + (tz : ℚ)) +
        ((h - ⌊(t + (tz : ℚ)) / 3600000⌋ % 24 : ℤ) : ℚ) * 3600000 +
        ((m - ⌊(t + (tz : ℚ)) / 60000⌋ % 60 : ℤ) : ℚ) * 60000 := by
    simp only [setMinutesQ, hmin]
    rw [show setHoursQ tz t h + ((m - ⌊(t + (tz : ℚ)) / 60000⌋ % 60 : ℤ) : ℚ) *
        60000 + (tz : ℚ) = (setHoursQ tz t h + (tz : ℚ)) +
        ((m - ⌊(t + (tz : ℚ)) / 60000⌋ % 60 : ℤ) : ℚ) * 60000 by ring, ht1]
  rw [hfinal, hab, hDb]
  unfold qmod
  have key : 60000 * ⌊(t + (tz : ℚ)) / 60000⌋ -
      3600000 * ((⌊(t + (tz : ℚ)) / 60000⌋ / 60) % 24) -
      60000 * (⌊(t + (tz : ℚ)) / 60000⌋ % 60) =
      86400000 * (⌊(t + (tz : ℚ)) / 60000⌋ / 1440) := by
    omega
  have keyQ : (60000 : ℚ) * (⌊(t + (tz : ℚ)) / 60000⌋ : ℚ) -
      3600000 * (((⌊(t + (tz : ℚ)) / 60000⌋ / 60) % 24 : ℤ) : ℚ) -
      60000 * ((⌊(t + (tz : ℚ)) / 60000⌋ % 60 : ℤ) : ℚ) =
      86400000 * ((⌊(t + (tz : ℚ)) / 60000⌋ / 1440 : ℤ) : ℚ) := by
    exact_mod_cast key
  push_cast
  push_cast at keyQ
  linarith [keyQ]

/-- Decomposition of the anchoring step: a whole number of days plus
the seed hour/minute pattern plus the sub-minute part of the previous
wake time. -/
theorem anchorTime_decomp (tz sh sm : ℤ) (t : ℚ) :
    anchorTime tz sh sm t + (tz : ℚ) =
      86400000 * ((⌊(t + 86400000 + (tz : ℚ)) / 86400000⌋ : ℤ) : ℚ) +
        ((sh * 3600000 + sm * 60000 : ℤ) : ℚ) + qmod (t + (tz : ℚ)) 60000 := by
  unfold anchorTime
  rw [setHM_decomp]
  have h : t + 86400000 + (tz : ℚ) = (t + (tz : ℚ)) + 60000 * ((1440 : ℤ) : ℚ) := by
    push_cast
    ring
  rw [show qmod (t + 86400000 + (tz : ℚ)) 60000 = qmod (t + (tz : ℚ)) 60000 by
    rw [h]
    exact qmod_add_mul_int (t + (tz : ℚ)) 60000 1440 (by norm_num)]

/-- Invariant of the prediction loop for a whole-minute drift
`60000 * k` and a minute-aligned last wake time: every predicted wake
time stays minute-aligned, and (for `n ≥ 1`) its clock-of-day position
is the seed pattern plus `n` times the drift, modulo 24h. -/
theorem predWakeTime_invariant (tz sh sm k : ℤ) (lastWake : ℚ)
    (hsub : qmod (lastWake + (tz : ℚ)) 60000 = 0) :
    ∀ n : ℕ,
      qmod (predWakeTime tz sh sm ((60000 * k : ℤ) : ℚ) lastWake n + (tz : ℚ))
          60000 = 0 ∧
      (n = 0 ∨
        qmod (predWakeTime tz sh sm ((60000 * k : ℤ) : ℚ) lastWake n + (tz : ℚ))
            86400000 =
          qmod (((sh * 3600000 + sm * 60000 + 60000 * k * n : ℤ) : ℚ))
            86400000) := by
  intro n
  induction n with
  | zero => exact ⟨hsub, Or.inl rfl⟩
  | succ n ih =>
    have hprev := ih.1
    have hstep : predWakeTime tz sh sm ((60000 * k : ℤ) : ℚ) lastWake (n + 1) =
        anchorTime tz sh sm
          (predWakeTime tz sh sm ((60000 * k : ℤ) : ℚ) lastWake n) +
          ((60000 * k : ℤ) : ℚ) * ((n : ℚ) + 1) := rfl
    have hdec := anchorTime_decomp tz sh sm
      (predWakeTime tz sh sm ((60000 * k : ℤ) : ℚ) lastWake n)
    rw [hprev] at hdec
    have hw : predWakeTime tz sh sm ((60000 * k : ℤ) : ℚ) lastWake (n + 1) +
        (tz : ℚ) =
        86400000 * ((⌊(predWakeTime tz sh sm ((60000 * k : ℤ) : ℚ) lastWake n +
            86400000 + (tz : ℚ)) / 86400000⌋ : ℤ) : ℚ) +
          ((sh * 3600000 + sm * 60000 : ℤ) : ℚ) +
          ((60000 * k : ℤ) : ℚ) * ((n : ℚ) + 1) := by
      rw [hstep]
      rw [show anchorTime tz sh sm
          (predWakeTime tz sh sm ((60000 * k : ℤ) : ℚ) lastWake n) +
          ((60000 * k : ℤ) : ℚ) * ((n : ℚ) + 1) + (tz : ℚ) =
          (anchorTime tz sh sm
            (predWakeTime tz sh sm ((60000 * k : ℤ) : ℚ) lastWake n) +
            (tz : ℚ)) + ((60000 * k : ℤ) : ℚ) * ((n : ℚ) + 1) by ring, hdec]
      ring
    constructor
    · rw [hw]
      rw [show 86400000 * ((⌊(predWakeTime tz sh sm ((60000 * k : ℤ) : ℚ)
            lastWake n + 86400000 + (tz : ℚ)) / 86400000⌋ : ℤ) : ℚ) +
          ((sh * 3600000 + sm * 60000 : ℤ) : ℚ) +
          ((60000 * k : ℤ) : ℚ) * ((n : ℚ) + 1) =
          ((60000 * (1440 * ⌊(predWakeTime tz sh sm ((60000 * k : ℤ) : ℚ)
            lastWake n + 86400000 + (tz : ℚ)) / 86400000⌋ +
            60 * sh + sm + k * (n + 1)) : ℤ) : ℚ) by push_cast; ring]
      exact qmod_minute_mul _
    · right
      rw [hw, add_assoc, qmod_day_shift]
      congr 1
      push_cast
      ring

/-- C2 (amended): prediction `i` (0-based) of `generatePredictions`
wakes at the pattern-anchored time — previous wake time + 24h with
hour and minute set to the seed sleep pattern — plus
`sleepDrift * (i + 1)`, and sleeps at that wake time minus
`avgSleepDuration`; when the drift is a whole number of minutes and
the last wake time is minute-aligned, drift compounds additively on
the clock: prediction `n`'s clock-of-day position equals the seed
pattern plus `n * drift`, modulo 24h.  For a drift with a sub-minute
component the compounding identity fails, because `setHours` and
`setMinutes` re-anchor only the hour and minute fields while the
accumulated seconds survive (see the counterexample). -/
theorem generatePredictions_spec :
    (∀ (tz sh sm : ℤ) (d A avgR lastWake : ℚ) (days i : ℕ), i < days →
      (generatePredictions tz sh sm d A avgR lastWake days)[i]? =
        some { sleep := predWakeTime tz sh sm d lastWake (i + 1) - A
               wake := predWakeTime tz sh sm d lastWake (i + 1)
               rating := round avgR
               note := "Predicted entry"
               isPredicted := true } ∧
      predWakeTime tz sh sm d lastWake (i + 1) =
        anchorTime tz sh sm (predWakeTime tz sh sm d lastWake i) +
          d * ((i : ℚ) + 1)) ∧
    (∀ (tz sh sm k : ℤ) (lastWake : ℚ) (n : ℕ),
      qmod (lastWake + (tz : ℚ)) 60000 = 0 → 1 ≤ n →
      qmod (predWakeTime tz sh sm ((60000 * k : ℤ) : ℚ) lastWake n + (tz : ℚ))
          86400000 =
        qmod (((sh * 3600000 + sm * 60000 + 60000 * k * n : ℤ) : ℚ))
          86400000) := by
  constructor
  · intro tz sh sm d A avgR lastWake days i hi
    constructor
    · simp [generatePredictions, List.getElem?_map, List.getElem?_range, hi]
    · rfl
  · intro tz sh sm k lastWake n hsub hn
    rcases (predWakeTime_invariant tz sh sm k lastWake hsub n).2 with h0 | h
    · exact absurd h0 (by omega)
    · exact h

/-- Witness for C2 with one prediction step of a one-minute drift. -/
theorem generatePredictions_spec_witness :
    qmod ((0 : ℚ) + ((0 : ℤ) : ℚ)) 60000 = 0 ∧ 1 ≤ 1 ∧
    qmod (predWakeTime 0 0 0 ((60000 * 1 : ℤ) : ℚ) 0 1 + ((0 : ℤ) : ℚ))
        86400000 =
      qmod (((0 * 3600000 + 0 * 60000 + 60000 * 1 * (1 : ℕ) : ℤ) : ℚ))
        86400000 := by
  have hsub : qmod ((0 : ℚ) + ((0 : ℤ) : ℚ)) 60000 = 0 := by
    norm_num [qmod]
  exact ⟨hsub, le_refl 1,
    generatePredictions_spec.2 0 0 0 1 0 1 hsub (le_refl 1)⟩

/-- Concrete evaluation: the anchor of the epoch under seed pattern
00:00 and offset 0 is exactly one day. -/
theorem anchorTime_epoch : anchorTime 0 0 0 (0 : ℚ) = 86400000 := by
  norm_num [anchorTime, setHoursQ, setMinutesQ, getHoursQ, getMinutesQ,
    Rat.floor_def]

/-- Concrete evaluation: the anchor of 86430000 (one day and 30
seconds) keeps the 30 seconds. -/
theorem anchorTime_halfmin : anchorTime 0 0 0 (86430000 : ℚ) = 172830000 := by
  norm_num [anchorTime, setHoursQ, setMinutesQ, getHoursQ, getMinutesQ,
    Rat.floor_def]

/-- Counterexample for C2's compounding clause as stated: with seed
pattern 00:00, last wake at the epoch and a drift of +30 seconds, the
second prediction's clock-of-day position is 90 seconds past midnight,
not the seed pattern plus `2 * drift = 60` seconds — the seconds part
of the drift survives the hour/minute re-anchoring and is counted
twice. -/
theorem generatePredictions_clock_cex :
    qmod (predWakeTime 0 0 0 (30000 : ℚ) 0 2 + ((0 : ℤ) : ℚ)) 86400000 =
      90000 ∧
    qmod (((0 * 3600000 + 0 * 60000 + 30000 * 2 : ℤ) : ℚ)) 86400000 = 60000 ∧
    (90000 : ℚ) ≠ 60000 := by
  have h0 : predWakeTime 0 0 0 (30000 : ℚ) 0 0 = 0 := rfl
  have h1 : predWakeTime 0 0 0 (30000 : ℚ) 0 1 = 86430000 := by
    have hs : predWakeTime 0 0 0 (30000 : ℚ) 0 1 =
        anchorTime 0 0 0 (predWakeTime 0 0 0 (30000 : ℚ) 0 0) +
          30000 * (((0 : ℕ) : ℚ) + 1) := rfl
    rw [hs, h0, anchorTime_epoch]
    norm_num
  have h2 : predWakeTime 0 0 0 (30000 : ℚ) 0 2 = 172890000 := by
    have hs : predWakeTime 0 0 0 (30000 : ℚ) 0 2 =
        anchorTime 0 0 0 (predWakeTime 0 0 0 (30000 : ℚ) 0 1) +
          30000 * (((1 : ℕ) : ℚ) + 1) := rfl
    rw [hs, h1, anchorTime_halfmin]
    norm_num
  refine ⟨?_, ?_, by norm_num⟩
  · rw [h2]
    norm_num [qmod, Rat.floor_def]
  · norm_num [qmod, Rat.floor_def]
